import Mathlib

/-!
Shallow embedding of the survey-cleaning core of `src/utils.py` (and the
`compra_influenciada` composition from `src/data_wrangle.py`).

Python strings are modelled as `List Char`.  `None`/`NaN` inputs are modelled
as `Option` (or the `PyVal` type where a pandas column mixes strings, ints and
NaN).  Each definition mirrors one Python function or module-level table.
-/

/-- Python `str.isspace` / `str.strip` whitespace test, on the code point.
Covers the ASCII whitespace characters, the C1 separator block 28-31, NEL (133),
NBSP (160), and the Unicode space separators stripped by `str.strip()`. -/
def isPySpaceN (n : Nat) : Bool :=
  n == 32 || (9 ≤ n && n ≤ 13) || (28 ≤ n && n ≤ 31) || n == 133 || n == 160 ||
  n == 5760 || (8192 ≤ n && n ≤ 8202) || n == 8232 || n == 8233 || n == 8239 ||
  n == 8287 || n == 12288

/-- Whitespace test on characters (Python `str.strip` / regex `\s`). -/
def isPySpace (c : Char) : Bool := isPySpaceN c.toNat

/-- Membership in the regex class `[a-zA-Z]`. -/
def isAsciiAlphaB (c : Char) : Bool :=
  let n := c.toNat
  (65 ≤ n && n ≤ 90) || (97 ≤ n && n ≤ 122)

/-- Membership in the regex class `[a-zA-Z ]` used by `normalize_key_strict`. -/
def keepStrictB (c : Char) : Bool :=
  isAsciiAlphaB c || c.toNat == 32

/-- Association lookup with character keys (used for the NFKD fold table). -/
def alookupChar : List (Char × List Char) → Char → Option (List Char)
  | [], _ => none
  | (k, v) :: m, c => if k == c then some v else alookupChar m c

/-- NFKD decompositions, restricted to their ASCII part, for the Latin letters
with diacritics that occur in the survey data; NFKD sends each to its base
letter followed by a combining mark, and `encode("ascii", "ignore")` keeps only
the base letter. -/
def FOLD_TABLE : List (Char × List Char) :=
  [('á', ['a']), ('é', ['e']), ('í', ['i']), ('ó', ['o']), ('ú', ['u']),
   ('Á', ['A']), ('É', ['E']), ('Í', ['I']), ('Ó', ['O']), ('Ú', ['U']),
   ('ñ', ['n']), ('Ñ', ['N']), ('ü', ['u']), ('Ü', ['U']),
   ('à', ['a']), ('è', ['e']), ('ì', ['i']), ('ò', ['o']), ('ù', ['u']),
   ('â', ['a']), ('ê', ['e']), ('î', ['i']), ('ô', ['o']), ('û', ['u']),
   ('ä', ['a']), ('ë', ['e']), ('ï', ['i']), ('ö', ['o']),
   ('ç', ['c']), ('Ç', ['C'])]

/-- Model of `unicodedata.normalize("NFKD", -).encode("ascii", "ignore")` on one
character: ASCII code points are unchanged; Latin letters with diacritics
decompose to their base letter (the combining mark is then dropped by the ascii
encode); every other non-ASCII character is dropped. -/
def foldChar (c : Char) : List Char :=
  if c.toNat < 128 then [c]
  else
    match alookupChar FOLD_TABLE c with
    | some r => r
    | none => []

/-- Whole-string diacritic folding to ASCII (line 25 / line 38 of `utils.py`). -/
def asciiFold : List Char → List Char
  | [] => []
  | c :: cs => foldChar c ++ asciiFold cs

/-- Removal of trailing Python whitespace (the right half of `str.strip()`). -/
def stripEnd : List Char → List Char
  | [] => []
  | c :: cs =>
    if (stripEnd cs).isEmpty then (if isPySpace c then [] else [c])
    else c :: stripEnd cs

/-- Python `str.strip()`: drop leading and trailing whitespace. -/
def pyStrip (l : List Char) : List Char :=
  stripEnd (List.dropWhile isPySpace l)

/-- Model of `re.sub(r"\s+", " ", -)`: each maximal run of whitespace becomes a
single space.  The Boolean records whether the previous character was part of a
whitespace run already replaced. -/
def collapseAux : Bool → List Char → List Char
  | _, [] => []
  | b, c :: cs =>
    if isPySpace c then
      if b then collapseAux true cs else ' ' :: collapseAux true cs
    else c :: collapseAux false cs

/-- Whitespace-run collapsing, `re.sub(r"\s+", " ", -)`. -/
def collapseWs (l : List Char) : List Char := collapseAux false l

/-- Model of `re.sub(r"[^a-zA-Z ]+", " ", -)`: each maximal run of characters
outside `[a-zA-Z ]` becomes a single space.  The Boolean records whether the
previous character was part of a run already replaced. -/
def subRunsAux : Bool → List Char → List Char
  | _, [] => []
  | p, c :: cs =>
    if keepStrictB c then c :: subRunsAux false cs
    else if p then subRunsAux true cs
    else ' ' :: subRunsAux true cs

/-- Replacement of non-letter, non-space runs by a space, `re.sub(r"[^a-zA-Z ]+", " ", -)`. -/
def subRuns (l : List Char) : List Char := subRunsAux false l

/-- Python `str.lower()` restricted to ASCII (every call site in `utils.py`
lowercases a string that has already been folded to ASCII). -/
def pyLowerChar (c : Char) : Char :=
  if 65 ≤ c.toNat && c.toNat ≤ 90 then Char.ofNat (c.toNat + 32) else c

/-- Python `str.lower()` on a whole (ASCII) string. -/
def pyLower (l : List Char) : List Char := l.map pyLowerChar

/-- Lines 11-28 of `utils.py`: strip, fold diacritics to ASCII, replace
non-letter runs by a space, collapse whitespace, strip, lowercase. -/
def normalize_key_strict (x : List Char) : List Char :=
  pyLower (pyStrip (collapseWs (subRuns (asciiFold (pyStrip x)))))

/-- Lines 31-40 of `utils.py`: fold diacritics to ASCII, collapse whitespace,
strip, lowercase (digits and punctuation survive). -/
def normalize_key_soft (x : List Char) : List Char :=
  pyLower (pyStrip (collapseWs (asciiFold x)))

/-- Spec-side strict pipeline, following the claim wording literally: characters
outside `[a-zA-Z ]` are DELETED (filtered out) before whitespace collapsing. -/
def spec_strict_delete (x : List Char) : List Char :=
  pyLower (pyStrip (collapseWs (List.filter keepStrictB (asciiFold (pyStrip x)))))

/-- Spec-side strict pipeline as amended: each character outside `[a-zA-Z ]` is
replaced by a space (character-wise) before whitespace collapsing. -/
def spec_strict_replace (x : List Char) : List Char :=
  pyLower (pyStrip (collapseWs (List.map (fun c => if keepStrictB c then c else ' ') (asciiFold (pyStrip x)))))

/-- Characters allowed in a well-formed strict-normalizer output: a space or a
lowercase ASCII letter. -/
def goodLowerB (c : Char) : Bool :=
  c.toNat == 32 || (97 ≤ c.toNat && c.toNat ≤ 122)

/-- No two adjacent characters are both spaces. -/
def noDoubleSpaceB : List Char → Bool
  | c1 :: c2 :: rest => !(c1.toNat == 32 && c2.toNat == 32) && noDoubleSpaceB (c2 :: rest)
  | _ => true

/-- The first character, if any, is not a space. -/
def headNotSpaceB : List Char → Bool
  | [] => true
  | c :: _ => !(c.toNat == 32)

/-- The last character, if any, is not a space. -/
def lastNotSpaceB (l : List Char) : Bool :=
  match l.getLast? with
  | none => true
  | some c => !(c.toNat == 32)

/-- Well-formedness of a strict-normalizer output: only lowercase ASCII letters
and single spaces, no leading or trailing space. -/
def strictWellFormed (l : List Char) : Bool :=
  l.all goodLowerB && noDoubleSpaceB l && headNotSpaceB l && lastNotSpaceB l

/-- Characters allowed in a soft-normalizer output: ASCII, not an uppercase
letter, and whitespace only as a plain space. -/
def softGoodB (c : Char) : Bool :=
  decide (c.toNat < 128) && !(65 ≤ c.toNat && c.toNat ≤ 90) && (!(isPySpace c) || c.toNat == 32)

/-- Well-formedness of a soft-normalizer output: ASCII with no uppercase, all
whitespace a single plain space, no leading or trailing space. -/
def softWellFormed (l : List Char) : Bool :=
  l.all softGoodB && noDoubleSpaceB l && headNotSpaceB l && lastNotSpaceB l

/-- Python `pat in t`: substring (contiguous) containment test. -/
def startsWithB : List Char → List Char → Bool
  | [], _ => true
  | _ :: _, [] => false
  | p :: ps, c :: cs => p == c && startsWithB ps cs

/-- Python `pat in t` (substring occurrence anywhere in `t`). -/
def substrB : List Char → List Char → Bool
  | pat, [] => pat == ([] : List Char)
  | pat, c :: cs => startsWithB pat (c :: cs) || substrB pat cs

/-- Association-list lookup, modelling Python `dict.get` with string keys. -/
def alookup {α : Type} : List (List Char × α) → List Char → Option α
  | [], _ => none
  | (k, v) :: m, s => if k == s then some v else alookup m s

/-- Lines 47-69 of `utils.py`: `MAP_PAISES`. -/
def MAP_PAISES : List (List Char × List Char) :=
  [("mexico".data, "México".data),
   ("mexco".data, "México".data),
   ("mexuco".data, "México".data),
   ("cdmx".data, "México".data),
   ("ciudad de mexico".data, "México".data),
   ("estados unidos".data, "Estados Unidos".data),
   ("usa".data, "Estados Unidos".data),
   ("colombia".data, "Colombia".data),
   ("ecuador".data, "Ecuador".data),
   ("peru".data, "Perú".data),
   ("brasil".data, "Brasil".data),
   ("argentina".data, "Argentina".data),
   ("costa rica".data, "Costa Rica".data),
   ("alemania".data, "Alemania".data),
   ("dinamarca".data, "Dinamarca".data),
   ("espana".data, "España".data),
   ("canada".data, "Canadá".data),
   ("paises bajos".data, "Países Bajos".data),
   ("puerto rico".data, "Puerto Rico".data),
   ("el salvador".data, "El Salvador".data),
   ("guatemala".data, "Guatemala".data)]

/-- Lines 72-79 of `utils.py`: `homogeneizar_pais`.  `None`/NaN passes through;
a strict-normalized key hit maps to the canonical name; otherwise the raw value
is returned stripped. -/
def homogeneizar_pais : Option (List Char) → Option (List Char)
  | none => none
  | some x =>
    match alookup MAP_PAISES (normalize_key_strict x) with
    | some v => some v
    | none => some (pyStrip x)

/-- Lines 388-394 of `utils.py`: `PERCEP_MAP_NORM` (keys are the raw answers). -/
def PERCEP_MAP_NORM : List (List Char × Int) :=
  [("Mucho menos favorable".data, -2),
   ("Algo menos favorable".data, -1),
   ("Sin cambio".data, 0),
   ("Algo más favorable".data, 1),
   ("Mucho más favorable".data, 2)]

/-- Lines 397-400 of `utils.py`: `map_percepcion`; NaN input gives NaN, a
missed lookup gives NaN (`dict.get` default), both modelled as `none`. -/
def map_percepcion : Option (List Char) → Option Int
  | none => none
  | some x => alookup PERCEP_MAP_NORM x

/-- Value of one cell of a pandas column: a string, an integer code, or NaN. -/
inductive PyVal where
  | vstr : List Char → PyVal
  | vint : Int → PyVal
  | vnan : PyVal
deriving DecidableEq

/-- Lines 407-412 of `utils.py`: `COMPRA_MAP_NORM`, keyed by raw answers. -/
def COMPRA_MAP_NORM : List (PyVal × Int) :=
  [(PyVal.vstr ("Sí".data), 1),
   (PyVal.vstr ("No".data), -1),
   (PyVal.vstr ("No estoy seguro/a".data), 0),
   (PyVal.vstr ("No aplica".data), 0)]

/-- Python `dict.get(x, nan)` over a dict whose keys are pandas cell values. -/
def pyDictGet : List (PyVal × Int) → PyVal → Option Int
  | [], _ => none
  | (k, v) :: m, x => if k = x then some v else pyDictGet m x

/-- Lines 415-418 of `utils.py`: `map_compra`.  NaN stays NaN; otherwise a
`COMPRA_MAP_NORM` lookup with NaN as the miss default. -/
def map_compra (x : PyVal) : PyVal :=
  match x with
  | PyVal.vnan => PyVal.vnan
  | v =>
    match pyDictGet COMPRA_MAP_NORM v with
    | some z => PyVal.vint z
    | none => PyVal.vnan

/-- The remap dict `{"si": 1, "no": 0}` of `data_wrangle.py` line 85. -/
def SI_NO_REMAP : List (PyVal × Int) :=
  [(PyVal.vstr ("si".data), 1), (PyVal.vstr ("no".data), 0)]

/-- Lines 84-85 of `data_wrangle.py`: the `compra_influenciada` cell value is the
`map_compra` output re-mapped through `{"si": 1, "no": 0}` via `Series.map`
(NaN maps to NaN, a missed key maps to NaN). -/
def compra_influenciada (x : PyVal) : PyVal :=
  match map_compra x with
  | PyVal.vnan => PyVal.vnan
  | v =>
    match pyDictGet SI_NO_REMAP v with
    | some z => PyVal.vint z
    | none => PyVal.vnan

/-- Lines 425-435 of `utils.py`: `map_inversion`, returning the pair
(`inversion_igual_ord`, `inversion_igual_cat`). -/
def map_inversion : Option (List Char) → Option Int × Option (List Char)
  | none => (none, none)
  | some x =>
    let t := normalize_key_soft x
    if startsWithB ("si".data) t then (some 1, some ("si".data))
    else if t == "no".data then (some 0, some ("no".data))
    else if substrB ("no estoy seguro".data) t then (some (-11), some ("no_seguro".data))
    else (none, none)

/-- Lines 442-452 of `utils.py`: `map_actitud`, returning the pair
(`actitud_marca_ff_ord`, `actitud_marca_ff_cat`). -/
def map_actitud : Option (List Char) → Option Int × Option (List Char)
  | none => (none, none)
  | some x =>
    let t := normalize_key_soft x
    if substrB ("boicot".data) t then (some (-1), some ("boicot".data))
    else if substrB ("no cambiaria".data) t || substrB ("no cambia".data) t then
      (some 0, some ("no_cambia".data))
    else if substrB ("apoyar".data) t || substrB ("apoyaria".data) t then
      (some 1, some ("apoyo".data))
    else (none, none)

/-- Lines 478-490 of `utils.py`: `map_crecimiento`, returning the pair
(`crecimiento_5y_ord`, `crecimiento_5y_no_seguro`); the flag is an `Int` 0/1. -/
def map_crecimiento : Option (List Char) → Option Int × Int
  | none => (none, 0)
  | some x =>
    let t := normalize_key_soft x
    if substrB ("se mantendra igual".data) t then (some 0, 0)
    else if substrB ("crecera lentamente".data) t then (some 1, 0)
    else if substrB ("crecera significativamente".data) t then (some 2, 0)
    else if substrB ("no estoy seguro".data) t then (none, 1)
    else (none, 0)

/-- Lines 365-381 of `utils.py`: `featurize_asistencia`, returning the pair
(`asist_ord`, `ha_asistido`).  The Python code computes `k` by the keyword
chain, returns early for "no aplica", and derives `ha` as `(k in (1, 2)) * 1`
(NaN when `k` is NaN); the branches below write out the resulting pairs. -/
def featurize_asistencia : Option (List Char) → Option Int × Option Int
  | none => (none, none)
  | some x =>
    let t := normalize_key_soft x
    if substrB ("con frecuencia".data) t then (some 2, some 1)
    else if substrB ("una o dos".data) t || substrB ("una o dos veces".data) t then
      (some 1, some 1)
    else if substrB ("no aplica".data) t then (none, some 0)
    else if substrB ("no".data) t then (some 0, some 0)
    else (none, none)

/-- Output record of `featurize_canales`: the `canal__*` dummies of lines
180-232 of `utils.py`. -/
structure CanalesOut where
  canal__tv_abierta : Nat
  canal__tv_cable : Nat
  canal__streaming : Nat
  canal__redes_sociales : Nat
  canal__radio : Nat
  canal__estadio : Nat
  canal__app_deportiva : Nat
  canal__youtube : Nat
  canal__no_en_vivo : Nat
  canal__indiferente : Nat
deriving DecidableEq

/-- Line 213 of `utils.py`: `NEGACIONES_CANAL`. -/
def NEGACIONES_CANAL : List (List Char) :=
  [("no sigo los juegos en vivo".data), ("no aplica".data)]

/-- Line 214 of `utils.py`: `INDETERMINADO_CANAL`. -/
def INDETERMINADO_CANAL : List (List Char) :=
  [("donde lo pasen".data)]

/-- The guard `any(neg in t for neg in NEGACIONES_CANAL)`. -/
def negCanalB (t : List Char) : Bool :=
  NEGACIONES_CANAL.any (fun p => substrB p t)

/-- The guard `any(ind in t for ind in INDETERMINADO_CANAL)`. -/
def indetCanalB (t : List Char) : Bool :=
  INDETERMINADO_CANAL.any (fun p => substrB p t)

/-- Dummy value for one category: 1 when any of its aliases occurs in `t`.
This folds the per-alias iteration over `ALIAS2CANAL` / `ALIAS2RED`: the dict
loop only ever sets a flag to 1, so a flag ends at 1 exactly when some alias
mapped to it is a substring of `t`. -/
def aliasHit (t : List Char) (aliases : List (List Char)) : Nat :=
  if aliases.any (fun a => substrB a t) then 1 else 0

/-- Lines 217-232 of `utils.py`: `featurize_canales`.  NaN gives all zeros; a
negation phrase short-circuits with `canal__no_en_vivo = 1`; otherwise the
`donde lo pasen` flag and the per-canal alias dummies are computed.  The alias
lists group `ALIAS2CANAL` (lines 191-211) by target canal, in dict order. -/
def featurize_canales : Option (List Char) → CanalesOut
  | none => ⟨0, 0, 0, 0, 0, 0, 0, 0, 0, 0⟩
  | some x =>
    let t := normalize_key_soft x
    if negCanalB t then ⟨0, 0, 0, 0, 0, 0, 0, 0, 1, 0⟩
    else
      { canal__tv_abierta := aliasHit t [("tv abierta".data)],
        canal__tv_cable := aliasHit t
          [("tv por cable".data), ("sky soccer".data), ("sky".data),
           ("iptv".data), ("samsung tv".data)],
        canal__streaming := aliasHit t
          [("servicio de streaming".data), ("streaming".data),
           ("dazn".data), ("danz".data)],
        canal__redes_sociales := aliasHit t [("redes sociales".data)],
        canal__radio := aliasHit t [("radio".data)],
        canal__estadio := aliasHit t [("asistencia al estadio".data)],
        canal__app_deportiva := aliasHit t [("aplicacion deportiva".data)],
        canal__youtube := aliasHit t [("youtube".data)],
        canal__no_en_vivo := 0,
        canal__indiferente := if indetCanalB t then 1 else 0 }

/-- Output record of `featurize_redes`: the `rs__*` dummies of lines 239-270 of
`utils.py`. -/
structure RedesOut where
  rs__instagram : Nat
  rs__twitter_x : Nat
  rs__facebook : Nat
  rs__tiktok : Nat
  rs__youtube : Nat
  rs__no_redes : Nat
  rs__no_aplica : Nat
deriving DecidableEq

/-- Line 251 of `utils.py`: `NEGACIONES_RED`. -/
def NEGACIONES_RED : List (List Char) :=
  [("no lo sigo en redes sociales".data), ("no aplica".data)]

/-- Containment of some `NEGACIONES_RED` phrase in `t`. -/
def negRedB (t : List Char) : Bool :=
  NEGACIONES_RED.any (fun p => substrB p t)

/-- Lines 254-270 of `utils.py`: `featurize_redes`.  NaN gives all zeros;
`no aplica` short-circuits with `rs__no_aplica = 1`; `no lo sigo en redes
sociales` short-circuits with `rs__no_redes = 1`; otherwise the per-platform
alias dummies are computed, grouping `ALIAS2RED` (lines 241-249) by target. -/
def featurize_redes : Option (List Char) → RedesOut
  | none => ⟨0, 0, 0, 0, 0, 0, 0⟩
  | some x =>
    let t := normalize_key_soft x
    if substrB ("no aplica".data) t then ⟨0, 0, 0, 0, 0, 0, 1⟩
    else if substrB ("no lo sigo en redes sociales".data) t then ⟨0, 0, 0, 0, 0, 1, 0⟩
    else
      { rs__instagram := aliasHit t [("instagram".data)],
        rs__twitter_x := aliasHit t [("twitter/x".data), ("twitter".data)],
        rs__facebook := aliasHit t [("facebook".data)],
        rs__tiktok := aliasHit t [("tiktok".data)],
        rs__youtube := aliasHit t [("youtube".data), ("you tube".data)],
        rs__no_redes := 0,
        rs__no_aplica := 0 }

/-- Python `s.split(",")`: split at every comma, keeping empty pieces. -/
def splitComma : List Char → List (List Char)
  | [] => [[]]
  | c :: cs =>
    if c == ',' then [] :: splitComma cs
    else
      match splitComma cs with
      | [] => [[c]]
      | t :: ts => (c :: t) :: ts

/-- Lines 524-525 of `utils.py`: `_split_multi` on a string input: split on
commas and strip each piece (the Python `set` is modelled as the list of
pieces, since only membership is ever used). -/
def split_multi (s : List Char) : List (List Char) :=
  (splitComma s).map pyStrip

/-- Output record of `featurize_desafios`: one flag per `DESAFIOS_MAP` key
(lines 497-521 of `utils.py`), in dict order. -/
structure DesafiosOut where
  desafio_estereotipos_genero : Nat
  desafio_falta_cobertura_mediatica : Nat
  desafio_poca_independencia : Nat
  desafio_pocas_oportunidades_jovenes : Nat
  desafio_estigma_social : Nat
  desafio_falta_espacios : Nat
  desafio_promocion_debil : Nat
  desafio_baja_calidad_juego : Nat
  desafio_poca_inversion : Nat
  desafio_bajos_salarios : Nat
  desafio_aficion_no_crece : Nat
deriving DecidableEq

/-- Flag for one challenge category: 1 when any accepted phrase is (exactly)
one of the split-and-stripped tokens. -/
def phraseFlag (opts : List (List Char)) (frases : List (List Char)) : Nat :=
  if frases.any (fun f => opts.any (fun o => o == f)) then 1 else 0

/-- Lines 528-533 of `utils.py`: `featurize_desafios`.  A non-string (NaN)
input yields the empty token set, hence all-zero flags. -/
def featurize_desafios (s : Option (List Char)) : DesafiosOut :=
  let opts := match s with | none => [] | some l => split_multi l
  { desafio_estereotipos_genero := phraseFlag opts [("Estereotipos de género".data)],
    desafio_falta_cobertura_mediatica := phraseFlag opts [("Falta de cobertura mediática".data)],
    desafio_poca_independencia := phraseFlag opts
      [("Poca independencia de las liga/clubes masculinos".data),
       ("En Argentina a nivel selección e interclubes se mueven e intercambian siempre las mismas jugadoras. Es decir".data)],
    desafio_pocas_oportunidades_jovenes := phraseFlag opts
      [("Falta de talleres que impulsen a las niñas a entrenar desde chicas".data),
       ("Pocas oportunidades para niñas y adolescentes".data)],
    desafio_estigma_social := phraseFlag opts [("Estigma social".data)],
    desafio_falta_espacios := phraseFlag opts
      [("Falta de espacios públicos para el deporte".data),
       ("Experiencia del aficionado (Localidad de estadios y experiencia dentro)".data)],
    desafio_promocion_debil := phraseFlag opts [("Promoción débil".data)],
    desafio_baja_calidad_juego := phraseFlag opts [("Baja calidad de juego".data)],
    desafio_poca_inversion := phraseFlag opts
      [("Poca inversión".data), ("Poco interés de los directivos de fútbol".data)],
    desafio_bajos_salarios := phraseFlag opts
      [("Bajos salarios de jugadoras".data),
       ("Falta de reglas claras para mantener un balance competitivo en la cancha".data)],
    desafio_aficion_no_crece := phraseFlag opts [("La afición no está creciendo".data)] }

/-!
Lemma layer: character-class facts and stage-by-stage properties of the
normalizer pipeline, used for the well-formedness and idempotence theorems.
-/

theorem char_toNat_ofNat_ascii {n : Nat} (h : n < 128) : (Char.ofNat n).toNat = n := by
  have hv : Nat.isValidChar n := Or.inl (by omega)
  simp [Char.ofNat, hv, Char.ofNatAux, Char.toNat, UInt32.ofNat', UInt32.toNat,
    BitVec.toNat_ofNatLt]

theorem char_eq_of_toNat_eq {c d : Char} (h : c.toNat = d.toNat) : c = d :=
  Char.ext (UInt32.ext h)

theorem pyLowerChar_toNat (c : Char) :
    (pyLowerChar c).toNat = if 65 ≤ c.toNat ∧ c.toNat ≤ 90 then c.toNat + 32 else c.toNat := by
  unfold pyLowerChar
  by_cases h : 65 ≤ c.toNat ∧ c.toNat ≤ 90
  · rw [if_pos (by simp [h.1, h.2]), if_pos h, char_toNat_ofNat_ascii (by omega)]
  · rw [if_neg (by simpa [Bool.and_eq_true, decide_eq_true_eq] using h), if_neg h]

theorem pyLowerChar_eq_self {c : Char} (h : ¬(65 ≤ c.toNat ∧ c.toNat ≤ 90)) :
    pyLowerChar c = c := by
  unfold pyLowerChar
  rw [if_neg (by simpa [Bool.and_eq_true, decide_eq_true_eq] using h)]

theorem mem_dropWhile {p : Char → Bool} {l : List Char} {c : Char}
    (h : c ∈ l.dropWhile p) : c ∈ l := by
  induction l with
  | nil => simp at h
  | cons d ds ih =>
    rw [List.dropWhile_cons] at h
    by_cases hp : p d = true
    · rw [if_pos hp] at h
      exact List.mem_cons_of_mem d (ih h)
    · rw [if_neg hp] at h
      exact h

theorem head?_dropWhile_not {p : Char → Bool} {l : List Char} {c : Char}
    (h : (l.dropWhile p).head? = some c) : p c = false := by
  induction l with
  | nil => simp at h
  | cons d ds ih =>
    rw [List.dropWhile_cons] at h
    by_cases hp : p d = true
    · rw [if_pos hp] at h
      exact ih h
    · rw [if_neg hp] at h
      simp only [List.head?_cons, Option.some_inj] at h
      subst h
      simpa using hp

theorem dropWhile_eq_self {p : Char → Bool} {l : List Char}
    (h : ∀ c, l.head? = some c → p c = false) : l.dropWhile p = l := by
  cases l with
  | nil => rfl
  | cons d ds =>
    rw [List.dropWhile_cons, if_neg]
    simp [h d rfl]

theorem stripEnd_cons (c : Char) (cs : List Char) :
    stripEnd (c :: cs) = [] ∨ stripEnd (c :: cs) = c :: stripEnd cs := by
  rw [stripEnd]
  cases h : stripEnd cs with
  | nil =>
    by_cases hc : isPySpace c = true
    · left; simp [hc]
    · right; simp [hc, h]
  | cons r rs => right; simp

theorem mem_stripEnd {l : List Char} {c : Char} (h : c ∈ stripEnd l) : c ∈ l := by
  induction l with
  | nil => simp [stripEnd] at h
  | cons d ds ih =>
    rcases stripEnd_cons d ds with he | he <;> rw [he] at h
    · simp at h
    · rcases List.mem_cons.mp h with h1 | h2
      · simp [h1]
      · exact List.mem_cons_of_mem d (ih h2)

theorem head?_stripEnd {l : List Char} {c : Char}
    (h : (stripEnd l).head? = some c) : l.head? = some c := by
  cases l with
  | nil => simp [stripEnd] at h
  | cons d ds =>
    rcases stripEnd_cons d ds with he | he <;> rw [he] at h
    · simp at h
    · simpa using h

theorem getLast?_stripEnd_not_ws {l : List Char} {c : Char}
    (h : (stripEnd l).getLast? = some c) : isPySpace c = false := by
  induction l with
  | nil => simp [stripEnd] at h
  | cons d ds ih =>
    rw [stripEnd] at h
    cases hds : stripEnd ds with
    | nil =>
      rw [hds] at h
      by_cases hd : isPySpace d = true
      · simp [hd] at h
      · simp only [List.isEmpty_nil, if_true, if_neg hd, List.getLast?_singleton,
          Option.some_inj] at h
        subst h
        simpa using hd
    | cons r rs =>
      rw [hds] at h
      simp only [List.isEmpty_cons, Bool.false_eq_true, if_false,
        List.getLast?_cons_cons] at h
      apply ih
      rw [hds]
      exact h

theorem stripEnd_eq_self {l : List Char}
    (h : ∀ c, l.getLast? = some c → isPySpace c = false) : stripEnd l = l := by
  induction l with
  | nil => rfl
  | cons d ds ih =>
    cases ds with
    | nil =>
      have hd : isPySpace d = false := h d (by simp)
      rw [stripEnd]
      simp [stripEnd, hd]
    | cons e es =>
      have hds : stripEnd (e :: es) = e :: es := by
        apply ih
        intro c hc
        apply h
        rw [List.getLast?_cons_cons]
        exact hc
      rw [stripEnd, hds]
      simp

theorem mem_collapseAux {b : Bool} {l : List Char} {c : Char}
    (h : c ∈ collapseAux b l) : c = ' ' ∨ (c ∈ l ∧ isPySpace c = false) := by
  induction l generalizing b with
  | nil => simp [collapseAux] at h
  | cons d ds ih =>
    rw [collapseAux] at h
    by_cases hd : isPySpace d = true
    · rw [if_pos hd] at h
      by_cases hb : b = true
      · subst hb
        rw [if_pos rfl] at h
        rcases ih h with h1 | h2
        · exact Or.inl h1
        · exact Or.inr ⟨List.mem_cons_of_mem d h2.1, h2.2⟩
      · rw [if_neg hb] at h
        rcases List.mem_cons.mp h with h1 | h2
        · exact Or.inl h1
        · rcases ih h2 with h3 | h4
          · exact Or.inl h3
          · exact Or.inr ⟨List.mem_cons_of_mem d h4.1, h4.2⟩
    · rw [if_neg hd] at h
      rcases List.mem_cons.mp h with h1 | h2
      · subst h1
        exact Or.inr ⟨List.mem_cons_self c ds, by simpa using hd⟩
      · rcases ih h2 with h3 | h4
        · exact Or.inl h3
        · exact Or.inr ⟨List.mem_cons_of_mem d h4.1, h4.2⟩

theorem collapseAux_true_head {l : List Char} {c : Char} {cs : List Char}
    (h : collapseAux true l = c :: cs) : isPySpace c = false := by
  induction l generalizing c cs with
  | nil => simp [collapseAux] at h
  | cons d ds ih =>
    rw [collapseAux] at h
    by_cases hd : isPySpace d = true
    · rw [if_pos hd, if_pos rfl] at h
      exact ih h
    · rw [if_neg hd] at h
      obtain ⟨h1, h2⟩ := List.cons.inj h
      subst h1
      simpa using hd

theorem noDouble_collapseAux (b : Bool) (l : List Char) :
    noDoubleSpaceB (collapseAux b l) = true := by
  induction l generalizing b with
  | nil => simp [collapseAux, noDoubleSpaceB]
  | cons d ds ih =>
    rw [collapseAux]
    by_cases hd : isPySpace d = true
    · rw [if_pos hd]
      by_cases hb : b = true
      · rw [if_pos hb]
        exact ih true
      · rw [if_neg hb]
        cases hc : collapseAux true ds with
        | nil => simp [noDoubleSpaceB]
        | cons r rs =>
          have hr : isPySpace r = false := collapseAux_true_head hc
          have hr32 : (r.toNat == 32) = false := by
            simp only [isPySpace, isPySpaceN] at hr
            simp only [beq_eq_false_iff_ne]
            intro h32
            simp [h32] at hr
          rw [noDoubleSpaceB, hr32]
          simp only [Bool.and_false, Bool.not_false, Bool.true_and]
          have := ih true
          rw [hc] at this
          exact this
    · rw [if_neg hd]
      have hd32 : (d.toNat == 32) = false := by
        simp only [isPySpace, isPySpaceN] at hd
        simp only [beq_eq_false_iff_ne]
        intro h32
        simp [h32] at hd
      cases hc : collapseAux false ds with
      | nil => simp [noDoubleSpaceB]
      | cons r rs =>
        rw [noDoubleSpaceB, hd32]
        simp only [Bool.false_and, Bool.not_false, Bool.true_and]
        have := ih false
        rw [hc] at this
        exact this

theorem collapseAux_eq_self {l : List Char}
    (hplain : ∀ c ∈ l, isPySpace c = true → c = ' ')
    (hnd : noDoubleSpaceB l = true) :
    collapseAux false l = l ∧
      ((∀ c cs, l = c :: cs → isPySpace c = false) → collapseAux true l = l) := by
  induction l with
  | nil => exact ⟨rfl, fun _ => rfl⟩
  | cons d ds ih =>
    have hplain' : ∀ c ∈ ds, isPySpace c = true → c = ' ' :=
      fun c hc => hplain c (List.mem_cons_of_mem d hc)
    have hnd' : noDoubleSpaceB ds = true := by
      cases ds with
      | nil => rfl
      | cons e es =>
        rw [noDoubleSpaceB, Bool.and_eq_true] at hnd
        exact hnd.2
    obtain ⟨ihf, iht⟩ := ih hplain' hnd'
    by_cases hd : isPySpace d = true
    · have hd' : d = ' ' := hplain d (List.mem_cons_self d ds) hd
      subst hd'
      have hds_head : ∀ c cs, ds = c :: cs → isPySpace c = false := by
        intro c cs hcs
        subst hcs
        rw [noDoubleSpaceB, Bool.and_eq_true] at hnd
        have h1 := hnd.1
        simp only [show (' '.toNat == 32) = true from rfl, Bool.true_and,
          Bool.not_eq_true'] at h1
        have hc32 : c.toNat ≠ 32 := by simpa using h1
        by_contra hws
        rw [Bool.not_eq_false] at hws
        have := hplain c (by simp) hws
        subst this
        exact hc32 rfl
      constructor
      · rw [collapseAux, if_pos hd, if_neg (by simp)]
        rw [iht hds_head]
      · intro hhead
        have := hhead ' ' ds rfl
        rw [hd] at this
        simp at this
    · constructor
      · rw [collapseAux, if_neg hd, ihf]
      · intro _
        rw [collapseAux, if_neg hd, ihf]

theorem mem_subRunsAux {p : Bool} {l : List Char} {c : Char}
    (h : c ∈ subRunsAux p l) : keepStrictB c = true := by
  induction l generalizing p with
  | nil => simp [subRunsAux] at h
  | cons d ds ih =>
    rw [subRunsAux] at h
    by_cases hd : keepStrictB d = true
    · rw [if_pos hd] at h
      rcases List.mem_cons.mp h with h1 | h2
      · subst h1; exact hd
      · exact ih h2
    · rw [if_neg hd] at h
      by_cases hp : p = true
      · rw [if_pos hp] at h
        exact ih h
      · rw [if_neg hp] at h
        rcases List.mem_cons.mp h with h1 | h2
        · subst h1; rfl
        · exact ih h2

theorem subRunsAux_eq_self {l : List Char} (h : ∀ c ∈ l, keepStrictB c = true)
    (p : Bool) : subRunsAux p l = l := by
  induction l generalizing p with
  | nil => rfl
  | cons d ds ih =>
    rw [subRunsAux, if_pos (h d (List.mem_cons_self d ds))]
    rw [ih (fun c hc => h c (List.mem_cons_of_mem d hc))]

theorem alookupChar_mem {m : List (Char × List Char)} {c : Char} {r : List Char}
    (h : alookupChar m c = some r) : ∃ kv, kv ∈ m ∧ kv.2 = r := by
  induction m with
  | nil => simp [alookupChar] at h
  | cons kv m ih =>
    rw [alookupChar] at h
    by_cases hk : (kv.1 == c) = true
    · rw [if_pos hk, Option.some_inj] at h
      exact ⟨kv, List.mem_cons_self kv m, h⟩
    · rw [if_neg hk] at h
      obtain ⟨kv', hm, hr⟩ := ih h
      exact ⟨kv', List.mem_cons_of_mem kv hm, hr⟩

theorem fold_table_ascii :
    FOLD_TABLE.all (fun kv => kv.2.all (fun c => decide (c.toNat < 128))) = true := by
  decide

theorem mem_foldChar_ascii {c c' : Char} (h : c' ∈ foldChar c) : c'.toNat < 128 := by
  rw [foldChar] at h
  by_cases hc : c.toNat < 128
  · rw [if_pos hc] at h
    simp only [List.mem_singleton] at h
    subst h
    exact hc
  · rw [if_neg hc] at h
    cases hl : alookupChar FOLD_TABLE c with
    | none =>
      rw [hl] at h
      simp at h
    | some r =>
      rw [hl] at h
      obtain ⟨kv, hm, hr⟩ := alookupChar_mem hl
      subst hr
      have := List.all_eq_true.mp fold_table_ascii kv hm
      have := List.all_eq_true.mp this c' h
      simpa using this

theorem foldChar_eq_of_ascii {c : Char} (h : c.toNat < 128) : foldChar c = [c] := by
  rw [foldChar, if_pos h]

theorem mem_asciiFold_ascii {l : List Char} {c : Char}
    (h : c ∈ asciiFold l) : c.toNat < 128 := by
  induction l with
  | nil => simp [asciiFold] at h
  | cons d ds ih =>
    rw [asciiFold] at h
    rcases List.mem_append.mp h with h1 | h2
    · exact mem_foldChar_ascii h1
    · exact ih h2

theorem asciiFold_eq_self {l : List Char} (h : ∀ c ∈ l, c.toNat < 128) :
    asciiFold l = l := by
  induction l with
  | nil => rfl
  | cons d ds ih =>
    rw [asciiFold, foldChar_eq_of_ascii (h d (List.mem_cons_self d ds))]
    rw [List.singleton_append, ih (fun c hc => h c (List.mem_cons_of_mem d hc))]

theorem isPySpaceN_eq_false_of_shift {n : Nat} (h1 : 65 ≤ n) (h2 : n ≤ 90) :
    isPySpaceN (n + 32) = false ∧ isPySpaceN n = false := by
  constructor <;> (simp only [isPySpaceN]; simp; omega)

theorem pyLowerChar_ws (c : Char) : isPySpace (pyLowerChar c) = isPySpace c := by
  rw [isPySpace, isPySpace, pyLowerChar_toNat]
  by_cases h : 65 ≤ c.toNat ∧ c.toNat ≤ 90
  · rw [if_pos h]
    obtain ⟨hs, hn⟩ := isPySpaceN_eq_false_of_shift h.1 h.2
    rw [hs, hn]
  · rw [if_neg h]

theorem pyLowerChar_toNat32 (c : Char) :
    ((pyLowerChar c).toNat == 32) = (c.toNat == 32) := by
  rw [pyLowerChar_toNat]
  by_cases h : 65 ≤ c.toNat ∧ c.toNat ≤ 90
  · rw [if_pos h]
    have h1 : (c.toNat + 32 == 32) = false := by simp; omega
    have h2 : (c.toNat == 32) = false := by simp; omega
    rw [h1, h2]
  · rw [if_neg h]

theorem keep_lower_good {c : Char} (h : keepStrictB c = true) :
    goodLowerB (pyLowerChar c) = true := by
  simp only [keepStrictB, isAsciiAlphaB, Bool.or_eq_true, Bool.and_eq_true,
    decide_eq_true_eq, beq_iff_eq] at h
  simp only [goodLowerB, Bool.or_eq_true, Bool.and_eq_true, decide_eq_true_eq,
    beq_iff_eq, pyLowerChar_toNat]
  by_cases hu : 65 ≤ c.toNat ∧ c.toNat ≤ 90
  · rw [if_pos hu]
    right
    omega
  · rw [if_neg hu]
    rcases h with (h1 | h2) | h3
    · exact absurd h1 hu
    · right; omega
    · left; omega

theorem noDouble_pair {c d : Char} {ds : List Char}
    (h : noDoubleSpaceB (c :: d :: ds) = true) :
    (c.toNat == 32 && d.toNat == 32) = false := by
  rw [noDoubleSpaceB, Bool.and_eq_true, Bool.not_eq_true'] at h
  exact h.1

theorem noDouble_tail {c : Char} {l : List Char}
    (h : noDoubleSpaceB (c :: l) = true) : noDoubleSpaceB l = true := by
  cases l with
  | nil => rfl
  | cons d ds =>
    rw [noDoubleSpaceB, Bool.and_eq_true] at h
    exact h.2

theorem noDouble_cons {c : Char} {l : List Char}
    (hpair : ∀ d, l.head? = some d → (c.toNat == 32 && d.toNat == 32) = false)
    (h : noDoubleSpaceB l = true) : noDoubleSpaceB (c :: l) = true := by
  cases l with
  | nil => rfl
  | cons d ds =>
    rw [noDoubleSpaceB, hpair d rfl, h]
    rfl

theorem noDouble_dropWhile {p : Char → Bool} {l : List Char}
    (h : noDoubleSpaceB l = true) : noDoubleSpaceB (l.dropWhile p) = true := by
  induction l with
  | nil => rfl
  | cons d ds ih =>
    rw [List.dropWhile_cons]
    by_cases hp : p d = true
    · rw [if_pos hp]
      exact ih (noDouble_tail h)
    · rw [if_neg hp]
      exact h

theorem noDouble_stripEnd {l : List Char}
    (h : noDoubleSpaceB l = true) : noDoubleSpaceB (stripEnd l) = true := by
  induction l with
  | nil => rfl
  | cons d ds ih =>
    rcases stripEnd_cons d ds with he | he <;> rw [he]
    · rfl
    · apply noDouble_cons
      · intro e he'
        have := head?_stripEnd he'
        cases ds with
        | nil => simp at this
        | cons f fs =>
          simp only [List.head?_cons, Option.some_inj] at this
          subst this
          exact noDouble_pair h
      · exact ih (noDouble_tail h)

theorem noDouble_pyLower {l : List Char}
    (h : noDoubleSpaceB l = true) : noDoubleSpaceB (pyLower l) = true := by
  induction l with
  | nil => rfl
  | cons c cs ih =>
    cases cs with
    | nil => rfl
    | cons d ds =>
      show noDoubleSpaceB (pyLowerChar c :: pyLowerChar d :: List.map pyLowerChar ds) = true
      rw [noDoubleSpaceB, pyLowerChar_toNat32, pyLowerChar_toNat32, noDouble_pair h]
      have := ih (noDouble_tail h)
      rw [show pyLower (d :: ds) = pyLowerChar d :: List.map pyLowerChar ds from rfl] at this
      rw [this]
      rfl

theorem ne32_of_not_ws {c : Char} (h : isPySpace c = false) : (c.toNat == 32) = false := by
  simp only [isPySpace, isPySpaceN] at h
  simp only [Bool.or_eq_false_iff, beq_eq_false_iff_ne] at h
  simp only [beq_eq_false_iff_ne]
  exact h.1.1.1.1.1.1.1.1.1.1.1

theorem good_not_ws_of_ne32 {c : Char} (hg : goodLowerB c = true)
    (h32 : (c.toNat == 32) = false) : isPySpace c = false := by
  simp only [goodLowerB, Bool.or_eq_true, Bool.and_eq_true, decide_eq_true_eq,
    beq_iff_eq] at hg
  simp only [beq_eq_false_iff_ne] at h32
  have hr : 97 ≤ c.toNat ∧ c.toNat ≤ 122 := by
    rcases hg with h | h
    · exact absurd h h32
    · exact h
  simp only [isPySpace, isPySpaceN]
  simp only [Bool.or_eq_false_iff, beq_eq_false_iff_ne, Bool.and_eq_false_iff,
    decide_eq_false_iff_not]
  omega

theorem space_of_good_ws {c : Char} (hg : goodLowerB c = true)
    (hws : isPySpace c = true) : c = ' ' := by
  apply char_eq_of_toNat_eq
  show c.toNat = 32
  by_contra h32
  have := good_not_ws_of_ne32 hg (by simpa using h32)
  rw [this] at hws
  exact Bool.false_ne_true hws

theorem tail_stage_noDouble (v : List Char) :
    noDoubleSpaceB (pyLower (pyStrip (collapseWs v))) = true :=
  noDouble_pyLower (noDouble_stripEnd (noDouble_dropWhile (noDouble_collapseAux false v)))

theorem tail_stage_head (v : List Char) :
    headNotSpaceB (pyLower (pyStrip (collapseWs v))) = true := by
  cases hy : pyStrip (collapseWs v) with
  | nil => rfl
  | cons c cs =>
    have hc : isPySpace c = false := by
      have h1 : (stripEnd (List.dropWhile isPySpace (collapseWs v))).head? = some c := by
        rw [show stripEnd (List.dropWhile isPySpace (collapseWs v)) = pyStrip (collapseWs v) from rfl, hy]
        rfl
      exact head?_dropWhile_not (head?_stripEnd h1)
    show headNotSpaceB (pyLowerChar c :: List.map pyLowerChar cs) = true
    rw [headNotSpaceB, pyLowerChar_toNat32, ne32_of_not_ws hc]
    rfl

theorem tail_stage_last (v : List Char) :
    lastNotSpaceB (pyLower (pyStrip (collapseWs v))) = true := by
  rw [lastNotSpaceB]
  rw [show pyLower (pyStrip (collapseWs v)) = List.map pyLowerChar (pyStrip (collapseWs v)) from rfl]
  rw [List.getLast?_map]
  cases hg : (pyStrip (collapseWs v)).getLast? with
  | none => rfl
  | some c =>
    have hc : isPySpace c = false := getLast?_stripEnd_not_ws hg
    show (!((pyLowerChar c).toNat == 32)) = true
    rw [pyLowerChar_toNat32, ne32_of_not_ws hc]
    rfl

theorem strict_core_keep (x : List Char) :
    ∀ c ∈ pyStrip (collapseWs (subRuns (asciiFold (pyStrip x)))), keepStrictB c = true := by
  intro c hc
  have h2 := mem_dropWhile (mem_stripEnd hc)
  rcases mem_collapseAux h2 with h3 | h4
  · subst h3; rfl
  · exact mem_subRunsAux h4.1

theorem strict_wf_core (x : List Char) :
    strictWellFormed (normalize_key_strict x) = true := by
  rw [strictWellFormed]
  rw [normalize_key_strict]
  have hall : (pyLower (pyStrip (collapseWs (subRuns (asciiFold (pyStrip x)))))).all goodLowerB = true := by
    rw [List.all_eq_true]
    intro c hc
    obtain ⟨c0, h0, rfl⟩ := List.mem_map.mp hc
    exact keep_lower_good (strict_core_keep x c0 h0)
  rw [hall, tail_stage_noDouble, tail_stage_head, tail_stage_last]
  rfl

theorem soft_core_fact (x : List Char) :
    ∀ c ∈ pyStrip (collapseWs (asciiFold x)),
      c.toNat < 128 ∧ (isPySpace c = true → c.toNat = 32) := by
  intro c hc
  have h2 := mem_dropWhile (mem_stripEnd hc)
  rcases mem_collapseAux h2 with h3 | h4
  · subst h3
    exact ⟨by decide, fun _ => rfl⟩
  · refine ⟨mem_asciiFold_ascii h4.1, fun hws => ?_⟩
    rw [h4.2] at hws
    exact absurd hws Bool.false_ne_true

theorem lower_ascii {c : Char} (h : c.toNat < 128) : (pyLowerChar c).toNat < 128 := by
  rw [pyLowerChar_toNat]
  by_cases hu : 65 ≤ c.toNat ∧ c.toNat ≤ 90
  · rw [if_pos hu]; omega
  · rw [if_neg hu]; exact h

theorem lower_not_upper (c : Char) :
    ¬(65 ≤ (pyLowerChar c).toNat ∧ (pyLowerChar c).toNat ≤ 90) := by
  rw [pyLowerChar_toNat]
  by_cases hu : 65 ≤ c.toNat ∧ c.toNat ≤ 90
  · rw [if_pos hu]; omega
  · rw [if_neg hu]; omega

theorem soft_wf_core (x : List Char) :
    softWellFormed (normalize_key_soft x) = true := by
  rw [softWellFormed, normalize_key_soft]
  have hall : (pyLower (pyStrip (collapseWs (asciiFold x)))).all softGoodB = true := by
    rw [List.all_eq_true]
    intro c hc
    obtain ⟨c0, h0, rfl⟩ := List.mem_map.mp hc
    obtain ⟨hascii, hplain⟩ := soft_core_fact x c0 h0
    rw [softGoodB]
    simp only [Bool.and_eq_true, Bool.or_eq_true, decide_eq_true_eq, beq_iff_eq,
      Bool.not_eq_true', Bool.and_eq_false_iff, decide_eq_false_iff_not]
    refine ⟨⟨lower_ascii hascii, ?_⟩, ?_⟩
    · have := lower_not_upper c0
      omega
    · by_cases hws : isPySpace c0 = true
      · right
        rw [pyLowerChar_toNat]
        have h32 := hplain hws
        rw [if_neg (by omega)]
        exact h32
      · left
        rw [pyLowerChar_ws]
        simpa using hws
  rw [hall, tail_stage_noDouble, tail_stage_head, tail_stage_last]
  rfl

theorem pyLower_eq_self {l : List Char} (h : ∀ c ∈ l, pyLowerChar c = c) :
    pyLower l = l := by
  induction l with
  | nil => rfl
  | cons c cs ih =>
    show pyLowerChar c :: List.map pyLowerChar cs = c :: cs
    rw [h c (List.mem_cons_self c cs)]
    rw [show List.map pyLowerChar cs = pyLower cs from rfl]
    rw [ih (fun d hd => h d (List.mem_cons_of_mem c hd))]

theorem pyStrip_eq_self {l : List Char}
    (hhead : ∀ c, l.head? = some c → isPySpace c = false)
    (hlast : ∀ c, l.getLast? = some c → isPySpace c = false) :
    pyStrip l = l := by
  rw [pyStrip, dropWhile_eq_self hhead, stripEnd_eq_self hlast]

theorem strict_fix_of_wf {y : List Char} (h : strictWellFormed y = true) :
    normalize_key_strict y = y := by
  rw [strictWellFormed, Bool.and_eq_true, Bool.and_eq_true, Bool.and_eq_true] at h
  obtain ⟨⟨⟨hall, hnd⟩, hhead⟩, hlast⟩ := h
  rw [List.all_eq_true] at hall
  have hheadws : ∀ c, y.head? = some c → isPySpace c = false := by
    intro c hc
    cases y with
    | nil => simp at hc
    | cons d ds =>
      simp only [List.head?_cons, Option.some_inj] at hc
      subst hc
      rw [headNotSpaceB] at hhead
      simp only [Bool.not_eq_true'] at hhead
      exact good_not_ws_of_ne32 (hall d (List.mem_cons_self d ds)) hhead
  have hlastws : ∀ c, y.getLast? = some c → isPySpace c = false := by
    intro c hc
    have hmem : c ∈ y := List.mem_of_mem_getLast? (by rw [hc]; rfl)
    rw [lastNotSpaceB, hc] at hlast
    simp only [Bool.not_eq_true'] at hlast
    exact good_not_ws_of_ne32 (hall c hmem) hlast
  have hstrip : pyStrip y = y := pyStrip_eq_self hheadws hlastws
  have hfold : asciiFold y = y := by
    apply asciiFold_eq_self
    intro c hc
    have := hall c hc
    simp only [goodLowerB, Bool.or_eq_true, Bool.and_eq_true, decide_eq_true_eq,
      beq_iff_eq] at this
    omega
  have hsub : subRuns y = y := by
    apply subRunsAux_eq_self
    intro c hc
    have := hall c hc
    simp only [goodLowerB, Bool.or_eq_true, Bool.and_eq_true, decide_eq_true_eq,
      beq_iff_eq] at this
    simp only [keepStrictB, isAsciiAlphaB, Bool.or_eq_true, Bool.and_eq_true,
      decide_eq_true_eq, beq_iff_eq]
    omega
  have hcoll : collapseWs y = y := by
    rw [collapseWs]
    exact (collapseAux_eq_self
      (fun c hc hws => space_of_good_ws (hall c hc) hws) hnd).1
  have hlower : pyLower y = y := by
    apply pyLower_eq_self
    intro c hc
    apply pyLowerChar_eq_self
    have := hall c hc
    simp only [goodLowerB, Bool.or_eq_true, Bool.and_eq_true, decide_eq_true_eq,
      beq_iff_eq] at this
    omega
  rw [normalize_key_strict, hstrip, hfold, hsub, hcoll, hstrip, hlower]

theorem soft_fix_of_wf {y : List Char} (h : softWellFormed y = true) :
    normalize_key_soft y = y := by
  rw [softWellFormed, Bool.and_eq_true, Bool.and_eq_true, Bool.and_eq_true] at h
  obtain ⟨⟨⟨hall, hnd⟩, hhead⟩, hlast⟩ := h
  rw [List.all_eq_true] at hall
  have hfacts : ∀ c ∈ y, c.toNat < 128 ∧ ¬(65 ≤ c.toNat ∧ c.toNat ≤ 90) ∧
      (isPySpace c = true → c.toNat = 32) := by
    intro c hc
    have := hall c hc
    rw [softGoodB] at this
    simp only [Bool.and_eq_true, Bool.or_eq_true, decide_eq_true_eq, beq_iff_eq,
      Bool.not_eq_true', Bool.and_eq_false_iff, decide_eq_false_iff_not] at this
    refine ⟨this.1.1, by omega, ?_⟩
    intro hws
    rcases this.2 with h1 | h2
    · rw [h1] at hws; exact absurd hws Bool.false_ne_true
    · exact h2
  have hplain : ∀ c ∈ y, isPySpace c = true → c = ' ' := by
    intro c hc hws
    exact char_eq_of_toNat_eq ((hfacts c hc).2.2 hws)
  have hheadws : ∀ c, y.head? = some c → isPySpace c = false := by
    intro c hc
    cases y with
    | nil => simp at hc
    | cons d ds =>
      simp only [List.head?_cons, Option.some_inj] at hc
      subst hc
      rw [headNotSpaceB] at hhead
      simp only [Bool.not_eq_true'] at hhead
      by_contra hws
      rw [Bool.not_eq_false] at hws
      have := (hfacts d (List.mem_cons_self d ds)).2.2 hws
      simp only [beq_eq_false_iff_ne] at hhead
      exact hhead this
  have hlastws : ∀ c, y.getLast? = some c → isPySpace c = false := by
    intro c hc
    have hmem : c ∈ y := List.mem_of_mem_getLast? (by rw [hc]; rfl)
    rw [lastNotSpaceB, hc] at hlast
    simp only [Bool.not_eq_true'] at hlast
    by_contra hws
    rw [Bool.not_eq_false] at hws
    have := (hfacts c hmem).2.2 hws
    simp only [beq_eq_false_iff_ne] at hlast
    exact hlast this
  have hstrip : pyStrip y = y := pyStrip_eq_self hheadws hlastws
  have hfold : asciiFold y = y := asciiFold_eq_self (fun c hc => (hfacts c hc).1)
  have hcoll : collapseWs y = y := by
    rw [collapseWs]
    exact (collapseAux_eq_self hplain hnd).1
  have hlower : pyLower y = y :=
    pyLower_eq_self (fun c hc => pyLowerChar_eq_self (hfacts c hc).2.1)
  rw [normalize_key_soft, hfold, hcoll, hstrip, hlower]

theorem collapse_subRuns (l : List Char) : ∀ b p : Bool, (p = true → b = true) →
    collapseAux b (subRunsAux p l) =
      collapseAux b (l.map (fun c => if keepStrictB c then c else ' ')) := by
  induction l with
  | nil => intro b p _; rfl
  | cons c cs ih =>
    intro b p hpb
    by_cases hk : keepStrictB c = true
    · rw [subRunsAux, if_pos hk]
      rw [List.map_cons, if_pos hk]
      by_cases hws : isPySpace c = true
      · rw [collapseAux, if_pos hws, collapseAux, if_pos hws]
        by_cases hb : b = true
        · rw [if_pos hb, if_pos hb]
          exact ih true false (fun h => absurd h (by simp))
        · rw [if_neg hb, if_neg hb]
          rw [ih true false (fun h => absurd h (by simp))]
      · rw [collapseAux, if_neg hws, collapseAux, if_neg hws]
        rw [ih false false (fun h => absurd h (by simp))]
    · rw [subRunsAux, if_neg hk]
      rw [List.map_cons, if_neg hk]
      have hsp : isPySpace ' ' = true := rfl
      by_cases hp : p = true
      · rw [if_pos hp]
        have hb := hpb hp
        subst hb
        rw [collapseAux, if_pos hsp, if_pos rfl]
        exact ih true true (fun _ => rfl)
      · rw [if_neg hp]
        rw [collapseAux, if_pos hsp, collapseAux, if_pos hsp]
        by_cases hb : b = true
        · rw [if_pos hb, if_pos hb]
          exact ih true true (fun _ => rfl)
        · rw [if_neg hb, if_neg hb]
          rw [ih true true (fun _ => rfl)]

theorem compra_lookup_shape (v : PyVal) :
    pyDictGet COMPRA_MAP_NORM v = none ∨ pyDictGet COMPRA_MAP_NORM v = some 1 ∨
    pyDictGet COMPRA_MAP_NORM v = some (-1) ∨ pyDictGet COMPRA_MAP_NORM v = some 0 := by
  simp only [COMPRA_MAP_NORM, pyDictGet]
  repeat' split
  all_goals simp

theorem map_compra_shape (x : PyVal) :
    map_compra x = PyVal.vnan ∨
    map_compra x = PyVal.vint 1 ∨ map_compra x = PyVal.vint (-1) ∨
    map_compra x = PyVal.vint 0 := by
  rcases x with s | z | _
  · rcases compra_lookup_shape (PyVal.vstr s) with h | h | h | h <;> simp [map_compra, h]
  · rcases compra_lookup_shape (PyVal.vint z) with h | h | h | h <;> simp [map_compra, h]
  · simp [map_compra]

/-!
Claim theorems.
-/

/-- C1, counterexample: the strict normalizer does NOT equal the spec pipeline
that deletes every non-letter, non-space character before collapsing
whitespace.  On the input `"a.b"` the code yields `"a b"` (the run `"."` is
replaced by a space by `re.sub(r"[^a-zA-Z ]+", " ", -)`), while deletion would
yield `"ab"`. -/
theorem c1_strict_delete_counterexample :
    normalize_key_strict ("a.b".data) ≠ spec_strict_delete ("a.b".data) ∧
    normalize_key_strict ("a.b".data) = "a b".data ∧
    spec_strict_delete ("a.b".data) = "ab".data :=
  ⟨by decide, by decide, by decide⟩

/-- C1, amended: for every input string, `normalize_key_strict` computes the
pipeline trim, then diacritic folding to ASCII, then REPLACING each character
that is not a letter or space by a space (equivalently, each maximal run of
such characters by a single space), then whitespace collapsing, then strip and
lowercase. -/
theorem c1_strict_replaces_non_letters_with_space (x : List Char) :
    normalize_key_strict x = spec_strict_replace x := by
  unfold normalize_key_strict spec_strict_replace collapseWs subRuns
  rw [collapse_subRuns (asciiFold (pyStrip x)) false false
    (fun h => absurd h Bool.false_ne_true)]

/-- C2: for the single-valued extractors `map_crecimiento`,
`featurize_asistencia`, `map_inversion` and `map_actitud`, a null input gives
null in every ordinal/categorical output field, and no flag is set to 1 (the
`crecimiento_5y_no_seguro` flag is 0, the other fields are null). -/
theorem c2_null_input_null_outputs :
    map_crecimiento none = (none, 0) ∧
    featurize_asistencia none = (none, none) ∧
    map_inversion none = (none, none) ∧
    map_actitud none = (none, none) :=
  ⟨rfl, rfl, rfl, rfl⟩

/-- C3: the sponsorship-perception extractor maps `"Mucho más favorable"` to 2,
`"Sin cambio"` to 0, and null to null. -/
theorem c3_percepcion_scenarios :
    map_percepcion (some ("Mucho más favorable".data)) = some 2 ∧
    map_percepcion (some ("Sin cambio".data)) = some 0 ∧
    map_percepcion none = none :=
  ⟨by decide, by decide, rfl⟩

/-- C4: on the multi-select input `"Estereotipos de género, Bajos salarios de
jugadoras"` the challenges extractor sets `desafio_estereotipos_genero = 1` and
`desafio_bajos_salarios = 1` and every other challenge flag to 0; the
tokenization (split on commas, strip each token, exact membership against the
accepted phrase lists) is the `split_multi`/`phraseFlag` pipeline embedded in
`featurize_desafios`. -/
theorem c4_desafios_scenario :
    featurize_desafios (some (("Estereotipos de género, Bajos salarios de jugadoras").data)) =
      ⟨1, 0, 0, 0, 0, 0, 0, 0, 0, 1, 0⟩ := by
  decide

/-- C5: whenever the soft normalization of a non-null input contains a negation
phrase, the channels extractor returns the record with `canal__no_en_vivo = 1`
and every other field 0, and the platforms extractor returns one of the two
records with a dedicated negation flag (`rs__no_aplica` or `rs__no_redes`) set
to 1 and every per-platform flag 0 — the negation short-circuits any alias. -/
theorem c5_negation_short_circuits (s : List Char) :
    (negCanalB (normalize_key_soft s) = true →
      featurize_canales (some s) = ⟨0, 0, 0, 0, 0, 0, 0, 0, 1, 0⟩) ∧
    (negRedB (normalize_key_soft s) = true →
      (featurize_redes (some s) = ⟨0, 0, 0, 0, 0, 0, 1⟩ ∨
       featurize_redes (some s) = ⟨0, 0, 0, 0, 0, 1, 0⟩)) := by
  constructor
  · intro h
    simp only [featurize_canales, h, if_true]
  · intro h
    have h' : substrB ("no aplica".data) (normalize_key_soft s) = true ∨
        substrB ("no lo sigo en redes sociales".data) (normalize_key_soft s) = true := by
      simp only [negRedB, NEGACIONES_RED, List.any_cons, List.any_nil,
        Bool.or_false, Bool.or_eq_true] at h
      exact h.symm
    by_cases hna : substrB ("no aplica".data) (normalize_key_soft s) = true
    · left
      simp only [featurize_redes, hna, if_true]
    · right
      have h2 : substrB ("no lo sigo en redes sociales".data) (normalize_key_soft s) = true := by
        rcases h' with h1 | h2
        · exact absurd h1 hna
        · exact h2
      simp only [featurize_redes]
      rw [if_neg (by simp [hna]), if_pos (by simp [h2])]

/-- C5 witness: the input `"No aplica"` satisfies both negation hypotheses and
the short-circuit conclusions follow from the theorem. -/
theorem c5_negation_short_circuits_witness :
    negCanalB (normalize_key_soft ("No aplica".data)) = true ∧
    featurize_canales (some ("No aplica".data)) = ⟨0, 0, 0, 0, 0, 0, 0, 0, 1, 0⟩ ∧
    negRedB (normalize_key_soft ("No aplica".data)) = true ∧
    (featurize_redes (some ("No aplica".data)) = ⟨0, 0, 0, 0, 0, 0, 1⟩ ∨
     featurize_redes (some ("No aplica".data)) = ⟨0, 0, 0, 0, 0, 1, 0⟩) :=
  ⟨by decide,
   (c5_negation_short_circuits ("No aplica".data)).1 (by decide),
   by decide,
   (c5_negation_short_circuits ("No aplica".data)).2 (by decide)⟩

/-- C6: for every input string, the strict normalizer's output contains only
lowercase ASCII letters and spaces, with no two adjacent spaces and no leading
or trailing space. -/
theorem c6_strict_output_wellformed (x : List Char) :
    strictWellFormed (normalize_key_strict x) = true :=
  strict_wf_core x

/-- C7: both normalizers are idempotent: re-normalizing an output returns it
unchanged, in strict and in soft mode. -/
theorem c7_normalizers_idempotent (x : List Char) :
    normalize_key_strict (normalize_key_strict x) = normalize_key_strict x ∧
    normalize_key_soft (normalize_key_soft x) = normalize_key_soft x :=
  ⟨strict_fix_of_wf (strict_wf_core x), soft_fix_of_wf (soft_wf_core x)⟩

/-- C8: the country homogenizer maps `"Cdmx"` to the canonical `"México"`, and
any non-null input whose strict normalization misses the table passes through
with only surrounding-whitespace trimming. -/
theorem c8_pais_scenarios (s : List Char)
    (h : alookup MAP_PAISES (normalize_key_strict s) = none) :
    homogeneizar_pais (some ("Cdmx".data)) = some ("México".data) ∧
    homogeneizar_pais (some s) = some (pyStrip s) := by
  refine ⟨by decide, ?_⟩
  simp only [homogeneizar_pais, h]

/-- C8 witness: `"Narnia"` misses the country table and passes through
unchanged (its strip is itself). -/
theorem c8_pais_scenarios_witness :
    alookup MAP_PAISES (normalize_key_strict ("Narnia".data)) = none ∧
    homogeneizar_pais (some ("Narnia".data)) = some ("Narnia".data) := by
  refine ⟨by decide, ?_⟩
  have h := c8_pais_scenarios ("Narnia".data) (by decide)
  rw [h.2]
  decide

/-- C9: for every raw cell value, the derived `compra_influenciada` value is
NaN: `map_compra` only produces the codes 1, -1, 0 or NaN, and the remap keyed
by the strings `"si"` and `"no"` never matches any of them. -/
theorem c9_compra_influenciada_always_nan (x : PyVal) :
    compra_influenciada x = PyVal.vnan ∧
    (map_compra x = PyVal.vnan ∨ map_compra x = PyVal.vint 1 ∨
     map_compra x = PyVal.vint (-1) ∨ map_compra x = PyVal.vint 0) := by
  have hs := map_compra_shape x
  constructor
  · rcases hs with h | h | h | h <;>
      simp [compra_influenciada, h, pyDictGet, SI_NO_REMAP]
  · exact hs

/-- C10: a non-null input whose soft normalization does not start with "si",
is not exactly "no", and contains "no estoy seguro" gets ordinal -11 and
category label "no_seguro" from the investment extractor. -/
theorem c10_inversion_no_seguro (s : List Char)
    (h1 : startsWithB ("si".data) (normalize_key_soft s) = false)
    (h2 : (normalize_key_soft s == "no".data) = false)
    (h3 : substrB ("no estoy seguro".data) (normalize_key_soft s) = true) :
    map_inversion (some s) = (some (-11), some ("no_seguro".data)) := by
  simp only [map_inversion]
  rw [if_neg (by simp [h1]), if_neg (by simp [h2]), if_pos (by simp [h3])]

/-- C10 witness: the input `"No estoy seguro/a"` satisfies the three
hypotheses, and the extractor returns (-11, "no_seguro") on it. -/
theorem c10_inversion_no_seguro_witness :
    startsWithB ("si".data) (normalize_key_soft ("No estoy seguro/a".data)) = false ∧
    (normalize_key_soft ("No estoy seguro/a".data) == "no".data) = false ∧
    substrB ("no estoy seguro".data) (normalize_key_soft ("No estoy seguro/a".data)) = true ∧
    map_inversion (some ("No estoy seguro/a".data)) =
      (some (-11), some ("no_seguro".data)) :=
  ⟨by decide, by decide, by decide,
   c10_inversion_no_seguro ("No estoy seguro/a".data) (by decide) (by decide) (by decide)⟩
